import Mathlib

/-!
Verification of the record-cleaning / downtime-decomposition core of
`src/124.py` (a single-file dashboard whose only logic is the function
`load_and_process_data` together with the helper `to_min`).

Modelling conventions (shallow embedding):

* Python floats are modelled as exact rationals (`ℚ`).  The pipeline only
  parses decimal literals and performs `+`, `-`, `max`; IEEE special values
  (`nan`, `inf`) and rounding are not modelled: `float("nan")`/`float("inf")`
  are treated as parse failures, and numeric-literal underscores
  (`int("1_0")`) and non-ASCII digits accepted by Python are not modelled.
* A CSV cell is modelled as a `String`; a missing numeric cell
  (pandas `NaN`) is modelled as `none` in an `Option ℚ` field.
* A row of the input table is the structure `Row` below, with exactly the
  columns the core reads.
* `json.loads` is modelled by the strict JSON parser `json_loads` below
  (fuel-based recursive descent, faithful to the JSON grammar Python's
  `json` module accepts, minus the non-standard `NaN/Infinity` literals
  and surrogate-pair `\u` escapes, none of which the claims touch).
-/

/-- The whitespace characters stripped by Python's `int()` / `float()`
(ASCII part of `str.strip`). -/
def isWsChar (c : Char) : Bool :=
  c = ' ' || c = '\t' || c = '\n' || c = '\r' || c = '\x0b' || c = '\x0c'

/-- Strip leading and trailing whitespace, as Python's `int()`/`float()` do
before parsing. -/
def trimWs (l : List Char) : List Char :=
  ((l.dropWhile isWsChar).reverse.dropWhile isWsChar).reverse

/-- ASCII decimal digit. -/
def isDigitChar (c : Char) : Bool :=
  '0' ≤ c && c ≤ '9'

/-- Numeric value of a list of decimal digits (most significant first). -/
def digitsVal (l : List Char) : ℕ :=
  l.foldl (fun a c => 10 * a + (c.toNat - 48)) 0

/-- A nonempty all-digit chunk, as the digit part of a Python integer
literal. -/
def parseIntDigits (l : List Char) : Option ℕ :=
  if l ≠ [] ∧ l.all isDigitChar then some (digitsVal l) else none

/-- Embedding of Python `int(s)` on strings: optional surrounding
whitespace, an optional single sign, then a nonempty digit run.
(Underscore digit separators are not modelled.) -/
def parseInt (l : List Char) : Option ℤ :=
  match trimWs l with
  | '+' :: rest => (parseIntDigits rest).map (fun n => (n : ℤ))
  | '-' :: rest => (parseIntDigits rest).map (fun n => -(n : ℤ))
  | rest => (parseIntDigits rest).map (fun n => (n : ℤ))

/-- Embedding of Python `str.split(sep)` for a one-character separator:
split at every occurrence, keeping empty chunks. -/
def splitOnChar (sep : Char) : List Char → List (List Char)
  | [] => [[]]
  | c :: cs =>
    if c = sep then [] :: splitOnChar sep cs
    else
      match splitOnChar sep cs with
      | [] => [[c]]
      | t :: ts => (c :: t) :: ts

/-- Mantissa of a Python float literal: digits with an optional decimal
point, at least one digit overall. -/
def parseMantissa (l : List Char) : Option ℚ :=
  match splitOnChar '.' l with
  | [i] => if i ≠ [] ∧ i.all isDigitChar then some ((digitsVal i : ℕ) : ℚ) else none
  | [i, f] =>
    if (i ≠ [] ∨ f ≠ []) ∧ i.all isDigitChar ∧ f.all isDigitChar then
      some ((digitsVal i : ℚ) + (digitsVal f : ℚ) / (10 : ℚ) ^ f.length)
    else none
  | _ => none

/-- Exponent part of a Python float literal: optional sign then a nonempty
digit run (no inner whitespace). -/
def parseExpPart (l : List Char) : Option ℤ :=
  match l with
  | '+' :: rest => (parseIntDigits rest).map (fun n => (n : ℤ))
  | '-' :: rest => (parseIntDigits rest).map (fun n => -(n : ℤ))
  | rest => (parseIntDigits rest).map (fun n => (n : ℤ))

/-- Unsigned body of a Python float literal: mantissa with an optional
`e`/`E` exponent. -/
def parseFloatBody (l : List Char) : Option ℚ :=
  match splitOnChar 'e' (l.map (fun c => if c = 'E' then 'e' else c)) with
  | [m] => parseMantissa m
  | [m, ex] =>
    match parseMantissa m, parseExpPart ex with
    | some q, some e => some (q * (10 : ℚ) ^ e)
    | _, _ => none
  | _ => none

/-- Embedding of Python `float(s)` on strings: optional surrounding
whitespace, optional sign, then a decimal mantissa with optional exponent.
(`nan`/`inf` literals are not modelled; they fall to `none`.) -/
def parseFloat (l : List Char) : Option ℚ :=
  match trimWs l with
  | '+' :: rest => parseFloatBody rest
  | '-' :: rest => (parseFloatBody rest).map (fun q => -q)
  | rest => parseFloatBody rest

/-- Embedding of `to_min` (src/124.py lines 12-19): if the text contains a
colon, split on every colon; exactly two integer parts give
`h*60 + m`; otherwise parse as a float; every failure (bad part count,
unparsable part, unparsable float) is caught by the bare `except` and
yields `0.0`. -/
def to_min (s : String) : ℚ :=
  if ':' ∈ s.data then
    match splitOnChar ':' s.data with
    | [h, m] =>
      match parseInt h, parseInt m with
      | some hv, some mv => ((hv * 60 + mv : ℤ) : ℚ)
      | _, _ => 0
    | _ => 0
  else
    match parseFloat s.data with
    | some v => v
    | none => 0

/-- The values Python's `json` module produces: `None`, `bool`, numbers
(modelled as `ℚ`), `str`, `list`, `dict` (as an ordered field list). -/
inductive JVal where
  | null
  | bool (b : Bool)
  | num (q : ℚ)
  | str (s : String)
  | arr (items : List JVal)
  | obj (fields : List (String × JVal))
deriving Repr

/-- Structural boolean equality on `JVal`. -/
def JVal.beq : JVal → JVal → Bool
  | .null, .null => true
  | .bool a, .bool b => a == b
  | .num a, .num b => a == b
  | .str a, .str b => a == b
  | .arr a, .arr b => go a b
  | .obj a, .obj b => goF a b
  | _, _ => false
where
  go : List JVal → List JVal → Bool
    | [], [] => true
    | x :: xs, y :: ys => JVal.beq x y && go xs ys
    | _, _ => false
  goF : List (String × JVal) → List (String × JVal) → Bool
    | [], [] => true
    | (s, x) :: xs, (t, y) :: ys => s == t && JVal.beq x y && goF xs ys
    | _, _ => false


/-- Python truthiness of a JSON value (`if name:`): `None`, `False`, `0`,
the empty string, the empty list and the empty dict are falsy. -/
def JVal.truthy : JVal → Bool
  | .null => false
  | .bool b => b
  | .num q => decide (q ≠ 0)
  | .str s => decide (s ≠ "")
  | .arr l => !l.isEmpty
  | .obj l => !l.isEmpty

/-- JSON whitespace skipped between tokens by Python's `json.loads`. -/
def skipWsJ (l : List Char) : List Char :=
  l.dropWhile (fun c => c = ' ' || c = '\t' || c = '\n' || c = '\r')

/-- Value of a hexadecimal digit. -/
def hexVal (c : Char) : Option ℕ :=
  if '0' ≤ c && c ≤ '9' then some (c.toNat - 48)
  else if 'a' ≤ c && c ≤ 'f' then some (c.toNat - 87)
  else if 'A' ≤ c && c ≤ 'F' then some (c.toNat - 55)
  else none

/-- JSON string body after the opening quote: characters and escapes up to
the closing quote; strict mode rejects raw control characters. Returns the
decoded characters and the rest of the input. -/
def parseJString : Nat → List Char → Option (List Char × List Char)
  | 0, _ => none
  | _ + 1, [] => none
  | fuel + 1, c :: cs =>
    if c = '"' then some ([], cs)
    else if c = '\\' then
      match cs with
      | [] => none
      | e :: cs2 =>
        let esc : Option (Char × List Char) :=
          if e = '"' then some ('"', cs2)
          else if e = '\\' then some ('\\', cs2)
          else if e = '/' then some ('/', cs2)
          else if e = 'b' then some (Char.ofNat 8, cs2)
          else if e = 'f' then some (Char.ofNat 12, cs2)
          else if e = 'n' then some ('\n', cs2)
          else if e = 'r' then some ('\r', cs2)
          else if e = 't' then some ('\t', cs2)
          else if e = 'u' then
            match cs2 with
            | h1 :: h2 :: h3 :: h4 :: cs3 =>
              match hexVal h1, hexVal h2, hexVal h3, hexVal h4 with
              | some a, some b, some c2, some d =>
                some (Char.ofNat (4096 * a + 256 * b + 16 * c2 + d), cs3)
              | _, _, _, _ => none
            | _ => none
          else none
        match esc with
        | some (ch, rest) => (parseJString fuel rest).map (fun p => (ch :: p.1, p.2))
        | none => none
    else if c.toNat < 32 then none
    else (parseJString fuel cs).map (fun p => (c :: p.1, p.2))

/-- Longest digit run at the head of the input, and the rest. -/
def takeDigits (l : List Char) : List Char × List Char :=
  (l.takeWhile isDigitChar, l.dropWhile isDigitChar)

/-- Fraction and exponent tail of a JSON number, given its sign and integer
part. -/
def parseJNumTail (sgn : ℚ) (ip : ℕ) (l : List Char) : Option (ℚ × List Char) :=
  let step1 : Option (ℚ × List Char) :=
    match l with
    | '.' :: rest =>
      let p := takeDigits rest
      if p.1 = [] then none
      else some ((ip : ℚ) + (digitsVal p.1 : ℚ) / (10 : ℚ) ^ p.1.length, p.2)
    | _ => some ((ip : ℚ), l)
  match step1 with
  | none => none
  | some (mant, l2) =>
    match l2 with
    | 'e' :: rest =>
      match parseJExp rest with
      | some (e, rest2) => some (sgn * mant * (10 : ℚ) ^ e, rest2)
      | none => none
    | 'E' :: rest =>
      match parseJExp rest with
      | some (e, rest2) => some (sgn * mant * (10 : ℚ) ^ e, rest2)
      | none => none
    | _ => some (sgn * mant, l2)
where
  parseJExp (l : List Char) : Option (ℤ × List Char) :=
    let p : ℤ × List Char :=
      match l with
      | '+' :: r => (1, r)
      | '-' :: r => (-1, r)
      | r => (1, r)
    let d := takeDigits p.2
    if d.1 = [] then none else some (p.1 * (digitsVal d.1 : ℤ), d.2)

/-- JSON number at the head of the input: optional minus, `0` or a run with
no leading zero, optional fraction and exponent. -/
def parseJNumber (l : List Char) : Option (ℚ × List Char) :=
  let p : ℚ × List Char :=
    match l with
    | '-' :: rest => (-1, rest)
    | rest => (1, rest)
  match p.2 with
  | c :: rest =>
    if c = '0' then parseJNumTail p.1 0 rest
    else if isDigitChar c then
      let d := takeDigits rest
      parseJNumTail p.1 (digitsVal (c :: d.1)) d.2
    else none
  | [] => none

mutual
/-- One JSON value at the head of the input (after skipping whitespace), as
Python's `json.loads` reads it. -/
def parseJValue : Nat → List Char → Option (JVal × List Char)
  | 0, _ => none
  | fuel + 1, l =>
    match skipWsJ l with
    | [] => none
    | c :: rest =>
      if c = '{' then
        match skipWsJ rest with
        | '}' :: rem => some (.obj [], rem)
        | _ => parseJObjLoop fuel rest []
      else if c = '[' then
        match skipWsJ rest with
        | ']' :: rem => some (.arr [], rem)
        | _ => parseJArrLoop fuel rest []
      else if c = '"' then
        (parseJString (fuel + 1) rest).map (fun p => (JVal.str (String.mk p.1), p.2))
      else if c = 't' then
        match rest with
        | 'r' :: 'u' :: 'e' :: rem => some (.bool true, rem)
        | _ => none
      else if c = 'f' then
        match rest with
        | 'a' :: 'l' :: 's' :: 'e' :: rem => some (.bool false, rem)
        | _ => none
      else if c = 'n' then
        match rest with
        | 'u' :: 'l' :: 'l' :: rem => some (.null, rem)
        | _ => none
      else
        (parseJNumber (c :: rest)).map (fun p => (JVal.num p.1, p.2))

/-- One `"key": value` member of a JSON object. -/
def parseJMember : Nat → List Char → Option ((String × JVal) × List Char)
  | 0, _ => none
  | fuel + 1, l =>
    match skipWsJ l with
    | '"' :: rest =>
      match parseJString (fuel + 1) rest with
      | some (k, rem) =>
        match skipWsJ rem with
        | ':' :: rem2 =>
          (parseJValue fuel rem2).map (fun p => ((String.mk k, p.1), p.2))
        | _ => none
      | none => none
    | _ => none

/-- Members of a nonempty JSON object, after the opening brace. -/
def parseJObjLoop : Nat → List Char → List (String × JVal) → Option (JVal × List Char)
  | 0, _, _ => none
  | fuel + 1, l, acc =>
    match parseJMember fuel l with
    | none => none
    | some (kv, rem) =>
      match skipWsJ rem with
      | ',' :: rem2 => parseJObjLoop fuel rem2 (acc ++ [kv])
      | '}' :: rem2 => some (.obj (acc ++ [kv]), rem2)
      | _ => none

/-- Elements of a nonempty JSON array, after the opening bracket. -/
def parseJArrLoop : Nat → List Char → List JVal → Option (JVal × List Char)
  | 0, _, _ => none
  | fuel + 1, l, acc =>
    match parseJValue fuel l with
    | none => none
    | some (v, rem) =>
      match skipWsJ rem with
      | ',' :: rem2 => parseJArrLoop fuel rem2 (acc ++ [v])
      | ']' :: rem2 => some (.arr (acc ++ [v]), rem2)
      | _ => none
end

/-- Embedding of Python `json.loads`: one value, then only whitespace may
remain. Any other shape raises in Python; here it is `none`. -/
def json_loads (s : String) : Option JVal :=
  match parseJValue (s.length + 1) s.data with
  | some (v, rem) => if skipWsJ rem = [] then some v else none
  | none => none

/-- One row of the uploaded table, with the columns the core reads
(src/124.py uses `machine_id`, `tool_id`, `downtime`,
`multiple_loss_code`; `shift`, `batch_strokes`, `actual_spm` are carried
through untouched). Numeric id columns are `Option ℚ` (`none` = missing /
pandas `NaN`); `downtime` and `multiple_loss_code` are the raw cell text. -/
structure Row where
  machine_id : Option ℚ
  tool_id : Option ℚ
  shift : String
  batch_strokes : Option ℚ
  actual_spm : Option ℚ
  downtime : String
  multiple_loss_code : String
deriving Repr, DecidableEq

/-- `df['tool_id'].isin([50, 500, 50.0, 500.0])` per row: a present value
numerically equal to 50 or 500; a missing value (`NaN`) is never `isin`. -/
def isSentinelTool (r : Row) : Bool :=
  match r.tool_id with
  | some t => decide (t = 50 ∨ t = 500)
  | none => false

/-- `df['machine_id'] > 0` per row: `NaN > 0` is false in pandas, so a
missing id fails the test. -/
def machinePosB (r : Row) : Bool :=
  match r.machine_id with
  | some m => decide (0 < m)
  | none => false

/-- `dropna(subset=['machine_id', 'tool_id'])` per row. -/
def notNaB (r : Row) : Bool :=
  r.machine_id.isSome && r.tool_id.isSome

/-- Embedding of the CLEANING step (src/124.py lines 26-27): the three
row-wise boolean-mask filters applied in the source's order. -/
def sanitize (rows : List Row) : List Row :=
  ((rows.filter (fun r => !isSentinelTool r)).filter machinePosB).filter notNaB

/-- Python `item.get(k)` on a parsed JSON object: the value stored for `k`
(for a duplicate key `json.loads` keeps the last occurrence), else `None`. -/
def getField (fields : List (String × JVal)) (k : String) : JVal :=
  match fields.reverse.find? (fun p => p.1 = k) with
  | some p => p.2
  | none => JVal.null

/-- Python `item.get(k, d)` with a default. -/
def getFieldD (fields : List (String × JVal)) (k : String) (d : JVal) : JVal :=
  match fields.reverse.find? (fun p => p.1 = k) with
  | some p => p.2
  | none => d

/-- `to_min` applied to a parsed JSON value, as the source applies it to
`item.get('lossTime', 0)`: a string goes through `str(t)` unchanged; for a
number `':' in str(t)` is false and `float(t)` is the number itself; for a
bool `float(True)` is `1.0`, `float(False)` is `0.0`; for `None`, a list or
a dict, `float(t)` raises (and no `str(t)` of those shapes can split into
two `int()`-parsable colon-parts, since `str` brackets the ends), so the
bare `except` in `to_min` yields `0.0`. -/
def to_minJ : JVal → ℚ
  | .str s => to_min s
  | .num q => q
  | .bool b => if b then 1 else 0
  | _ => 0

/-- Embedding of the per-event loop (src/124.py lines 38-44) with CPython
exception semantics: once an element is not a dict, `item.get` raises
`AttributeError` (or, for a non-list iterable element shape, the loop
itself raises), the bare `except` aborts the loop, and the idle time and
reasons accumulated so far are kept. `lossName` equal to the exact string
`"Machine Idle"` accrues idle time; otherwise a truthy `lossName` is
appended to the reason list. -/
def runItems : List JVal → ℚ → List JVal → ℚ × List JVal
  | [], idle, reasons => (idle, reasons)
  | JVal.obj fields :: rest, idle, reasons =>
    let name := getField fields "lossName"
    let time := to_minJ (getFieldD fields "lossTime" (JVal.num 0))
    if JVal.beq name (JVal.str "Machine Idle") then runItems rest (idle + time) reasons
    else if name.truthy then runItems rest idle (reasons ++ [name])
    else runItems rest idle reasons
  | _ :: _, idle, reasons => (idle, reasons)

/-- `str(row).replace("'", '"')` (src/124.py line 37): every single-quote
character becomes a double quote. -/
def pyNormalize (s : String) : String :=
  String.mk (s.data.map (fun c => if c = Char.ofNat 39 then '"' else c))

/-- Per-record loss decomposition (src/124.py lines 33-47): quote-normalize
and `json.loads` the cell; a parse failure, or a parsed value that is not a
list, contributes nothing (iterating a number/bool/`None` raises
`TypeError` at once, and iterating the keys of a dict or the characters of
a string raises `AttributeError` at the first `item.get`, all before any
accumulation); a parsed list is folded by `runItems`. Returns
(idle minutes, appended reason values). -/
def processRecord (cell : String) : ℚ × List JVal :=
  match json_loads (pyNormalize cell) with
  | some (JVal.arr items) => runItems items 0 []
  | _ => (0, [])

/-- A sanitized row augmented with the two derived columns (src/124.py
lines 49-50). -/
structure OutRow extends Row where
  net_idle_m : ℚ
  net_downtime_m : ℚ
deriving Repr, DecidableEq

/-- The two derived columns for one row: `net_idle_m` from the loss events,
`net_downtime_m = (to_min downtime - net_idle_m).clip(lower=0)`. -/
def augmentRow (r : Row) : OutRow :=
  { r with
    net_idle_m := (processRecord r.multiple_loss_code).1
    net_downtime_m :=
      max 0 (to_min r.downtime - (processRecord r.multiple_loss_code).1) }

/-- `flat_reasons` (src/124.py line 53): every record's reason list,
flattened in order (the `isinstance(sublist, list)` guard is always true:
each element was built as a Python list). -/
def flatReasons (rows : List Row) : List JVal :=
  ((sanitize rows).map (fun r => (processRecord r.multiple_loss_code).2)).flatten

/-- The distinct values of a list, first occurrence first, as the index of
`pd.Series(...).value_counts()`. -/
def firstOccs : List JVal → List JVal
  | [] => []
  | x :: xs => x :: (firstOccs xs).filter (fun y => !JVal.beq y x)

/-- Number of occurrences of `v` in `l`. -/
def countOcc (l : List JVal) (v : JVal) : ℕ :=
  (l.filter (fun x => JVal.beq x v)).length

/-- Comparison that orders frequency-table entries by descending count. -/
def tblGe (a b : JVal × ℕ) : Prop := b.2 ≤ a.2

instance : DecidableRel tblGe := fun a b => Nat.decLe b.2 a.2

instance : IsTotal (JVal × ℕ) tblGe := ⟨fun a b => Nat.le_total b.2 a.2⟩

instance : IsTrans (JVal × ℕ) tblGe := ⟨fun _ _ _ h1 h2 => Nat.le_trans h2 h1⟩

/-- Embedding of `pd.Series(l).value_counts()` (src/124.py line 54): one
entry per distinct value with its occurrence count, sorted by descending
count (tie order in pandas is unspecified; insertion sort keeps first
encounter order, one of the permitted tie orders). -/
def value_counts (l : List JVal) : List (JVal × ℕ) :=
  List.insertionSort tblGe ((firstOccs l).map (fun v => (v, countOcc l v)))

/-- The global loss-reason frequency table `loss_counts`. -/
def lossTable (rows : List Row) : List (JVal × ℕ) :=
  value_counts (flatReasons rows)

/-- Embedding of `load_and_process_data` (src/124.py lines 22-56), from the
parsed rows of the uploaded file to the pair `(df, loss_counts)`: the
sanitized rows augmented with the derived columns, and the loss-reason
frequency table. -/
def load_and_process_data (rows : List Row) : List OutRow × List (JVal × ℕ) :=
  ((sanitize rows).map augmentRow, lossTable rows)

/-- The sanitizer predicate as the SPEC words it (for the refinement claim
C3): `tool_id` present and not numerically equal to 50 or 500, and
`machine_id` present and strictly greater than 0. -/
def spec_keep (r : Row) : Bool :=
  match r.tool_id, r.machine_id with
  | some t, some m => decide (¬(t = 50 ∨ t = 500)) && decide (0 < m)
  | _, _ => false

/-- A row with the given ids, downtime text and loss-code text (the columns
the core never reads are fixed). -/
def mkRow (mid tid : Option ℚ) (dt lc : String) : Row :=
  { machine_id := mid, tool_id := tid, shift := "A", batch_strokes := none,
    actual_spm := none, downtime := dt, multiple_loss_code := lc }

/-- The spec's worked example's `multiple_loss_code` cell (\x7b is the
brace character): two single-quoted pseudo-JSON loss events, Machine Idle
for 5:00 and Jam for 2:00. -/
def exLossCode : String :=
  "[\x7b'lossName': 'Machine Idle', 'lossTime': '5:00'\x7d, \x7b'lossName': 'Jam', 'lossTime': '2:00'\x7d]"

/-- The spec's worked example row: `downtime = "10:30"` and the loss code
above, with ids that pass the sanitizer. -/
def exRow : Row :=
  mkRow (some 1) (some 1) "10:30" exLossCode

/-- A plain valid row whose loss code does not parse (used by witnesses). -/
def wRowPlain : Row :=
  mkRow (some 1) (some 7) "45" "not valid"

/-- A valid row with one parsed Jam loss event followed by a non-dict
element (used by witnesses). -/
def wRowPartial : Row :=
  mkRow (some 2) (some 3) "5:00" "[\x7b'lossName': 'Jam'\x7d, 5]"

/-! ### Lemmas about the embedded operations -/

mutual
theorem JVal.beq_iff : ∀ (a b : JVal), (JVal.beq a b = true ↔ a = b)
  | .null, b => by cases b <;> simp [JVal.beq]
  | .bool a, b => by cases b <;> simp [JVal.beq]
  | .num a, b => by cases b <;> simp [JVal.beq]
  | .str a, b => by cases b <;> simp [JVal.beq]
  | .arr a, b => by
      cases b <;> simp [JVal.beq]
      exact JVal.beq_go_iff a _
  | .obj a, b => by
      cases b <;> simp [JVal.beq]
      exact JVal.beq_goF_iff a _
theorem JVal.beq_go_iff : ∀ (a b : List JVal), (JVal.beq.go a b = true ↔ a = b)
  | [], b => by cases b <;> simp [JVal.beq.go]
  | x :: xs, [] => by simp [JVal.beq.go]
  | x :: xs, y :: ys => by
      simp [JVal.beq.go, JVal.beq_iff x y, JVal.beq_go_iff xs ys]
theorem JVal.beq_goF_iff : ∀ (a b : List (String × JVal)), (JVal.beq.goF a b = true ↔ a = b)
  | [], b => by cases b <;> simp [JVal.beq.goF]
  | x :: xs, [] => by simp [JVal.beq.goF]
  | (s, x) :: xs, (t, y) :: ys => by
      simp [JVal.beq.goF, JVal.beq_iff x y, JVal.beq_goF_iff xs ys]
end

theorem JVal.beq_refl (a : JVal) : JVal.beq a a = true :=
  (JVal.beq_iff a a).mpr rfl

theorem splitOnChar_of_not_mem {sep : Char} {l : List Char} (h : sep ∉ l) :
    splitOnChar sep l = [l] := by
  induction l with
  | nil => rfl
  | cons c cs ih =>
    have hc : ¬(c = sep) := fun e => h (e ▸ List.mem_cons_self c cs)
    have hcs : sep ∉ cs := fun m => h (List.mem_cons_of_mem _ m)
    simp [splitOnChar, hc, ih hcs]

theorem splitOnChar_append {sep : Char} {l1 : List Char} (l2 : List Char) (h : sep ∉ l1) :
    splitOnChar sep (l1 ++ sep :: l2) = l1 :: splitOnChar sep l2 := by
  induction l1 with
  | nil => simp [splitOnChar]
  | cons c cs ih =>
    have hc : ¬(c = sep) := fun e => h (e ▸ List.mem_cons_self c cs)
    have hcs : sep ∉ cs := fun m => h (List.mem_cons_of_mem _ m)
    simp [splitOnChar, hc, ih hcs]

/-! ### C3: the sanitizer is the stable filter by the spec's predicate -/

/-- C3: the sanitizer output is exactly the order-preserving filter of the
input rows by the predicate "(tool_id present and not numerically 50 or
500) and (machine_id present and > 0)": the three pandas masks of
src/124.py lines 26-27 compose to `List.filter spec_keep`, which keeps
every satisfying row, removes every failing row and preserves relative
order. -/
theorem C3_sanitize_eq_spec_filter (rows : List Row) :
    sanitize rows = rows.filter spec_keep := by
  unfold sanitize
  rw [List.filter_filter, List.filter_filter]
  apply List.filter_congr
  intro r _
  cases ht : r.tool_id <;> cases hm : r.machine_id <;>
    simp [spec_keep, isSentinelTool, machinePosB, notNaB, ht, hm, not_or,
      Bool.and_comm, Bool.and_assoc, Bool.and_left_comm]

/-! ### C9: the transformation is a pure function of the input -/

/-- C9: determinism / purity: the whole transformation is a function of the
parsed input rows alone; two runs on identical input content produce the
identical augmented record list and frequency table. (In this embedding
`load_and_process_data` reads nothing but its argument, so equal inputs
give equal outputs definitionally.) -/
theorem C9_deterministic (rows1 rows2 : List Row) (h : rows1 = rows2) :
    load_and_process_data rows1 = load_and_process_data rows2 := by
  rw [h]

theorem C9_witness :
    load_and_process_data [exRow] = load_and_process_data [exRow] :=
  C9_deterministic [exRow] [exRow] rfl

/-! ### C1: net_downtime_m = max(0, downtime - net_idle_m) ≥ 0 -/

/-- C1: every record surviving the sanitizer carries
`net_downtime_m = max 0 (to_min downtime - net_idle_m)` (the `.clip(lower=0)`
of src/124.py line 50), hence `net_downtime_m ≥ 0`. -/
theorem C1_net_downtime_clip (rows : List Row) (o : OutRow)
    (ho : o ∈ (load_and_process_data rows).1) :
    o.net_downtime_m = max 0 (to_min o.downtime - o.net_idle_m) ∧
    0 ≤ o.net_downtime_m := by
  have ho' : o ∈ (sanitize rows).map augmentRow := ho
  obtain ⟨r, _, rfl⟩ := List.mem_map.mp ho'
  exact ⟨rfl, le_max_left 0 _⟩

theorem C1_witness :
    (augmentRow wRowPlain).net_downtime_m =
      max 0 (to_min (augmentRow wRowPlain).downtime - (augmentRow wRowPlain).net_idle_m) ∧
    0 ≤ (augmentRow wRowPlain).net_downtime_m :=
  C1_net_downtime_clip [wRowPlain] (augmentRow wRowPlain)
    (by with_unfolding_all exact List.Mem.head _)

/-! ### C2: a record whose loss code does not parse to a list -/

/-- C2: a sanitized record whose `multiple_loss_code` does not parse to a
JSON list (parse failure of any kind, or a non-list result) is still in
the output, with `net_idle_m = 0` and an empty reason list (so it adds no
name to the frequency table). -/
theorem C2_unparsed_retained_zero (rows : List Row) (r : Row)
    (hr : r ∈ sanitize rows)
    (hp : ∀ items, json_loads (pyNormalize r.multiple_loss_code) ≠ some (JVal.arr items)) :
    augmentRow r ∈ (load_and_process_data rows).1 ∧
    (augmentRow r).net_idle_m = 0 ∧
    (processRecord r.multiple_loss_code).2 = [] := by
  have hpr : processRecord r.multiple_loss_code = (0, []) := by
    unfold processRecord
    cases hj : json_loads (pyNormalize r.multiple_loss_code) with
    | none => rfl
    | some v =>
      cases v with
      | arr items => exact absurd hj (hp items)
      | null => rfl
      | bool b => rfl
      | num q => rfl
      | str s => rfl
      | obj f => rfl
  refine ⟨List.mem_map_of_mem augmentRow hr, ?_, ?_⟩
  · show (processRecord r.multiple_loss_code).1 = 0
    rw [hpr]
  · rw [hpr]

theorem C2_witness :
    augmentRow wRowPlain ∈ (load_and_process_data [wRowPlain]).1 ∧
    (augmentRow wRowPlain).net_idle_m = 0 ∧
    (processRecord wRowPlain.multiple_loss_code).2 = [] :=
  C2_unparsed_retained_zero [wRowPlain] wRowPlain
    (by with_unfolding_all exact List.Mem.head _)
    (fun items h => by
      rw [show json_loads (pyNormalize wRowPlain.multiple_loss_code) = none from by
        with_unfolding_all rfl] at h
      cases h)

/-! ### C4: the duration parser contract -/

/-- C4: `to_min` on a two-part colon string with integer parts returns
`h*60 + m`; on a colon-free float-parsable text (and on a number reached
through `str`/`float`) it returns the numeric value; on a colon-free
unparsable text, and on a colon text that is not two integer parts, it
returns `0.0` (the bare `except`), and it is total, so no failure is
surfaced. -/
theorem C4_to_min_contract :
    (∀ (s1 s2 : String) (h m : ℤ), ':' ∉ s1.data → ':' ∉ s2.data →
      parseInt s1.data = some h → parseInt s2.data = some m →
      to_min (s1 ++ ":" ++ s2) = (h : ℚ) * 60 + (m : ℚ)) ∧
    (∀ (s : String) (v : ℚ), ':' ∉ s.data → parseFloat s.data = some v →
      to_min s = v) ∧
    (∀ q : ℚ, to_minJ (JVal.num q) = q) ∧
    (∀ s : String, ':' ∉ s.data → parseFloat s.data = none → to_min s = 0) ∧
    (∀ s : String, ':' ∈ s.data →
      (¬ ∃ h m hv mv, splitOnChar ':' s.data = [h, m] ∧
        parseInt h = some hv ∧ parseInt m = some mv) →
      to_min s = 0) := by
  refine ⟨?_, ?_, fun q => rfl, ?_, ?_⟩
  · intro s1 s2 h m h1 h2 hp1 hp2
    have hdata : (s1 ++ ":" ++ s2).data = s1.data ++ ':' :: s2.data := by
      simp [String.data_append]
    have hmem : ':' ∈ (s1 ++ ":" ++ s2).data := by
      rw [hdata]
      exact List.mem_append.mpr (Or.inr (List.mem_cons_self _ _))
    have hsplit : splitOnChar ':' (s1 ++ ":" ++ s2).data = [s1.data, s2.data] := by
      rw [hdata, splitOnChar_append _ h1, splitOnChar_of_not_mem h2]
    unfold to_min
    rw [if_pos hmem, hsplit]
    show (match parseInt s1.data, parseInt s2.data with
      | some hv, some mv => ((hv * 60 + mv : ℤ) : ℚ)
      | _, _ => 0) = (h : ℚ) * 60 + (m : ℚ)
    rw [hp1, hp2]
    show ((h * 60 + m : ℤ) : ℚ) = (h : ℚ) * 60 + (m : ℚ)
    push_cast
    ring
  · intro s v hnc hp
    unfold to_min
    rw [if_neg hnc, hp]
  · intro s hnc hp
    unfold to_min
    rw [if_neg hnc, hp]
  · intro s hc hno
    unfold to_min
    rw [if_pos hc]
    rcases hsp : splitOnChar ':' s.data with _ | ⟨p1, _ | ⟨p2, _ | _⟩⟩
    · rfl
    · rfl
    · cases hh : parseInt p1 with
      | none =>
        show (match parseInt p1, parseInt p2 with
          | some hv, some mv => ((hv * 60 + mv : ℤ) : ℚ)
          | _, _ => (0 : ℚ)) = (0 : ℚ)
        rw [hh]
      | some hv =>
        cases hm2 : parseInt p2 with
        | none =>
          show (match parseInt p1, parseInt p2 with
            | some hv, some mv => ((hv * 60 + mv : ℤ) : ℚ)
            | _, _ => (0 : ℚ)) = (0 : ℚ)
          rw [hh, hm2]
        | some mv => exact absurd ⟨p1, p2, hv, mv, hsp, hh, hm2⟩ hno
    · rfl

theorem C4_witness :
    to_min ("10" ++ ":" ++ "30") = ((10 : ℤ) : ℚ) * 60 + ((30 : ℤ) : ℚ) ∧
    to_min "2.5" = 5 / 2 ∧
    to_minJ (JVal.num 7) = 7 ∧
    to_min "abc" = 0 ∧
    to_min "a:b" = 0 :=
  ⟨C4_to_min_contract.1 "10" "30" 10 30 (by decide) (by decide) rfl rfl,
   C4_to_min_contract.2.1 "2.5" (5 / 2) (by decide) (by with_unfolding_all rfl),
   C4_to_min_contract.2.2.1 7,
   C4_to_min_contract.2.2.2.1 "abc" (by decide) (by with_unfolding_all rfl),
   C4_to_min_contract.2.2.2.2 "a:b" (by decide) (by
     rintro ⟨p1, p2, hv, mv, heq, hh, hm2⟩
     rw [show splitOnChar ':' ("a:b" : String).data = [['a'], ['b']] from rfl] at heq
     injection heq with e1 rest1
     injection rest1 with e2 rest2
     rw [← e1] at hh
     rw [show parseInt ['a'] = none from rfl] at hh
     cases hh)⟩

/-! ### C5: per-event dispatch on lossName -/

/-- C5: for one successfully parsed event object at the head of the list:
a `lossName` equal to the exact string "Machine Idle" adds the parsed
`lossTime` to the idle accumulator and leaves the reasons unchanged; any
other non-null, non-empty string `lossName` is appended to the reasons and
leaves the idle accumulator unchanged; a null or empty-string `lossName`
changes neither. -/
theorem C5_event_dispatch (fields : List (String × JVal)) (rest : List JVal)
    (idle : ℚ) (reasons : List JVal) :
    (getField fields "lossName" = JVal.str "Machine Idle" →
      runItems (JVal.obj fields :: rest) idle reasons =
        runItems rest (idle + to_minJ (getFieldD fields "lossTime" (JVal.num 0))) reasons) ∧
    (∀ s : String, getField fields "lossName" = JVal.str s →
      s ≠ "Machine Idle" → s ≠ "" →
      runItems (JVal.obj fields :: rest) idle reasons =
        runItems rest idle (reasons ++ [JVal.str s])) ∧
    ((getField fields "lossName" = JVal.null ∨ getField fields "lossName" = JVal.str "") →
      runItems (JVal.obj fields :: rest) idle reasons = runItems rest idle reasons) := by
  refine ⟨?_, ?_, ?_⟩
  · intro h
    simp only [runItems, h, JVal.beq_refl, if_true]
  · intro s h hne hne2
    simp only [runItems, h]
    rw [if_neg ?_, if_pos ?_]
    · simp [JVal.truthy, hne2]
    · simp only [JVal.beq]
      simp [hne]
  · rintro (h | h) <;> simp [runItems, h, JVal.beq, JVal.truthy]

theorem C5_witness :
    (runItems [JVal.obj [("lossName", JVal.str "Machine Idle"), ("lossTime", JVal.str "5:00")]] 0 [] =
      runItems [] (0 + to_minJ (getFieldD [("lossName", JVal.str "Machine Idle"), ("lossTime", JVal.str "5:00")] "lossTime" (JVal.num 0))) []) ∧
    (runItems [JVal.obj [("lossName", JVal.str "Jam")]] 0 [] =
      runItems [] 0 ([] ++ [JVal.str "Jam"])) ∧
    (runItems [JVal.obj [("lossName", JVal.null)]] 0 [] = runItems [] 0 []) :=
  ⟨(C5_event_dispatch [("lossName", JVal.str "Machine Idle"), ("lossTime", JVal.str "5:00")] [] 0 []).1
      (by with_unfolding_all rfl),
   (C5_event_dispatch [("lossName", JVal.str "Jam")] [] 0 []).2.1 "Jam"
      (by with_unfolding_all rfl) (by decide) (by decide),
   (C5_event_dispatch [("lossName", JVal.null)] [] 0 []).2.2
      (Or.inl (by with_unfolding_all rfl))⟩

/-! ### Lemmas about the frequency table -/

theorem JVal.beq_eq_false_iff {a b : JVal} : JVal.beq a b = false ↔ a ≠ b := by
  constructor
  · intro h e
    rw [e, JVal.beq_refl] at h
    cases h
  · intro h
    cases hb : JVal.beq a b with
    | false => rfl
    | true => exact absurd ((JVal.beq_iff a b).mp hb) h

theorem mem_firstOccs {v : JVal} {l : List JVal} : v ∈ firstOccs l ↔ v ∈ l := by
  induction l with
  | nil => simp [firstOccs]
  | cons x xs ih =>
    simp only [firstOccs, List.mem_cons, List.mem_filter]
    constructor
    · rintro (rfl | ⟨hm, _⟩)
      · exact Or.inl rfl
      · exact Or.inr (ih.mp hm)
    · rintro (rfl | hm)
      · exact Or.inl rfl
      · by_cases hvx : v = x
        · exact Or.inl hvx
        · exact Or.inr ⟨ih.mpr hm, by simp [JVal.beq_eq_false_iff, hvx]⟩

theorem nodup_firstOccs (l : List JVal) : (firstOccs l).Nodup := by
  induction l with
  | nil => simp [firstOccs]
  | cons x xs ih =>
    simp only [firstOccs]
    rw [List.nodup_cons]
    refine ⟨fun hx => ?_, List.Nodup.filter _ ih⟩
    have hpred := (List.mem_filter.mp hx).2
    rw [Bool.not_eq_eq_eq_not, Bool.not_true, JVal.beq_eq_false_iff] at hpred
    exact hpred rfl

theorem value_counts_perm (l : List JVal) :
    List.Perm (value_counts l) ((firstOccs l).map (fun v => (v, countOcc l v))) :=
  List.perm_insertionSort tblGe _

theorem value_counts_sorted (l : List JVal) :
    List.Sorted tblGe (value_counts l) :=
  List.sorted_insertionSort tblGe _

theorem mem_value_counts {l : List JVal} {p : JVal × ℕ} (hp : p ∈ value_counts l) :
    p.1 ∈ l ∧ p.2 = countOcc l p.1 := by
  have hm := (value_counts_perm l).mem_iff.mp hp
  obtain ⟨v, hv, rfl⟩ := List.mem_map.mp hm
  exact ⟨mem_firstOccs.mp hv, rfl⟩

theorem value_counts_complete {l : List JVal} {v : JVal} (hv : v ∈ l) :
    (v, countOcc l v) ∈ value_counts l :=
  (value_counts_perm l).mem_iff.mpr (List.mem_map_of_mem _ (mem_firstOccs.mpr hv))

theorem value_counts_keys_nodup (l : List JVal) :
    ((value_counts l).map Prod.fst).Nodup := by
  refine ((value_counts_perm l).map Prod.fst).nodup_iff.mpr ?_
  rw [List.map_map]
  have he : List.map (Prod.fst ∘ fun v => (v, countOcc l v)) (firstOccs l) = firstOccs l := by
    simp [Function.comp_def]
  rw [he]
  exact nodup_firstOccs l

/-! ### C6: the frequency table counts the flattened reasons, descending -/

/-- C6: the loss-reason frequency table has one entry per distinct value
occurring in the flattened reason lists of the sanitized records (no
duplicate names), each entry's count is the total number of occurrences of
its name, every occurring name has an entry, and entries are ordered by
descending count. -/
theorem C6_frequency_table (rows : List Row) :
    (∀ p ∈ lossTable rows,
      p.1 ∈ flatReasons rows ∧ p.2 = countOcc (flatReasons rows) p.1) ∧
    (∀ v ∈ flatReasons rows,
      (v, countOcc (flatReasons rows) v) ∈ lossTable rows) ∧
    List.Sorted tblGe (lossTable rows) ∧
    ((lossTable rows).map Prod.fst).Nodup :=
  ⟨fun _ hp => mem_value_counts hp, fun _ hv => value_counts_complete hv,
   value_counts_sorted _, value_counts_keys_nodup _⟩

theorem C6_witness :
    (JVal.str "Jam", countOcc (flatReasons [wRowPartial]) (JVal.str "Jam")) ∈
      lossTable [wRowPartial] :=
  (C6_frequency_table [wRowPartial]).2.1 (JVal.str "Jam")
    (by with_unfolding_all exact List.Mem.head _)

/-! ### C7: "Machine Idle" never reaches the frequency table -/

theorem runItems_no_MI (items : List JVal) :
    ∀ (idle : ℚ) (reasons : List JVal),
      JVal.str "Machine Idle" ∉ reasons →
      JVal.str "Machine Idle" ∉ (runItems items idle reasons).2 := by
  induction items with
  | nil => intro idle reasons h; exact h
  | cons v rest ih =>
    intro idle reasons h
    cases v with
    | obj fields =>
      cases hbeq : JVal.beq (getField fields "lossName") (JVal.str "Machine Idle") with
      | true =>
        simp only [runItems, hbeq, if_true]
        exact ih _ _ h
      | false =>
        simp only [runItems, hbeq, Bool.false_eq_true, if_false]
        cases htr : (getField fields "lossName").truthy with
        | false =>
          simp only [htr, Bool.false_eq_true, if_false]
          exact ih _ _ h
        | true =>
          simp only [htr, if_true]
          apply ih
          intro hm
          rcases List.mem_append.mp hm with h1 | h2
          · exact h h1
          · rw [List.mem_singleton] at h2
            rw [← h2, JVal.beq_refl] at hbeq
            cases hbeq
    | null => exact h
    | bool b => exact h
    | num q => exact h
    | str s => exact h
    | arr l => exact h

theorem flatReasons_no_MI (rows : List Row) :
    JVal.str "Machine Idle" ∉ flatReasons rows := by
  intro hmem
  unfold flatReasons at hmem
  rw [List.mem_flatten] at hmem
  obtain ⟨lres, hl, hmm⟩ := hmem
  obtain ⟨r, _, rfl⟩ := List.mem_map.mp hl
  revert hmm
  unfold processRecord
  cases json_loads (pyNormalize r.multiple_loss_code) with
  | none => simp
  | some v =>
    cases v with
    | arr items => exact runItems_no_MI items 0 [] (List.not_mem_nil _)
    | null => simp
    | bool b => simp
    | num q => simp
    | str s => simp
    | obj f => simp

/-- C7: whatever the input dataset, the frequency table has no entry whose
name is the exact string "Machine Idle": such events are diverted to the
idle accumulator and never appended to a reason list. -/
theorem C7_no_machine_idle_entry (rows : List Row) (n : ℕ) :
    (JVal.str "Machine Idle", n) ∉ lossTable rows :=
  fun hmem => flatReasons_no_MI rows (mem_value_counts hmem).1

theorem C7_witness :
    (JVal.str "Machine Idle", 1) ∉ lossTable [exRow] :=
  C7_no_machine_idle_entry [exRow] 1

/-! ### C8: the spec's worked example -/

/-- C8: on the example row (`downtime = "10:30"`, loss code with a 5:00
Machine Idle event and a 2:00 Jam event) the pipeline computes a raw
downtime of 630 minutes, `net_idle_m = 300`, `net_downtime_m = 330`, and a
reason list holding "Jam" exactly once. -/
theorem C8_worked_example :
    to_min exRow.downtime = 630 ∧
    (processRecord exRow.multiple_loss_code).1 = 300 ∧
    (processRecord exRow.multiple_loss_code).2 = [JVal.str "Jam"] ∧
    (load_and_process_data [exRow]).1 =
      [{ toRow := exRow, net_idle_m := 300, net_downtime_m := 330 }] :=
  ⟨by with_unfolding_all rfl, by with_unfolding_all rfl,
   by with_unfolding_all rfl, by with_unfolding_all rfl⟩

/-! ### C10: a bad element stops the loop but keeps earlier events -/

theorem runItems_stops_at_bad (bad : JVal) (hbad : ∀ f, bad ≠ JVal.obj f)
    (rest : List JVal) :
    ∀ (good : List JVal) (idle : ℚ) (reasons : List JVal),
      (∀ x ∈ good, ∃ f, x = JVal.obj f) →
      runItems (good ++ bad :: rest) idle reasons = runItems good idle reasons := by
  intro good
  induction good with
  | nil =>
    intro idle reasons _
    cases bad with
    | obj f => exact absurd rfl (hbad f)
    | null => rfl
    | bool b => rfl
    | num q => rfl
    | str s => rfl
    | arr l => rfl
  | cons x xs ih =>
    intro idle reasons hgood
    obtain ⟨f, rfl⟩ := hgood x (List.mem_cons_self _ _)
    have hxs : ∀ y ∈ xs, ∃ g, y = JVal.obj g :=
      fun y hy => hgood y (List.mem_cons_of_mem _ hy)
    simp only [List.cons_append, runItems]
    split
    · exact ih _ _ hxs
    · split
      · exact ih _ _ hxs
      · exact ih _ _ hxs

/-- C10 (implicit): if the loss code parses to a JSON list whose first
elements are objects and whose next element is not an object, the idle
time and reasons accumulated from the leading objects are kept for the
record; only the remaining elements are abandoned (the `AttributeError`
from `item.get` lands in the bare `except` after the partial mutation). -/
theorem C10_partial_accumulation (cell : String) (good : List JVal)
    (bad : JVal) (rest : List JVal)
    (hgood : ∀ x ∈ good, ∃ f, x = JVal.obj f) (hbad : ∀ f, bad ≠ JVal.obj f)
    (hp : json_loads (pyNormalize cell) = some (JVal.arr (good ++ bad :: rest))) :
    processRecord cell = runItems good 0 [] := by
  unfold processRecord
  rw [hp]
  exact runItems_stops_at_bad bad hbad rest good 0 [] hgood

theorem C10_witness :
    processRecord wRowPartial.multiple_loss_code =
      runItems [JVal.obj [("lossName", JVal.str "Jam")]] 0 [] :=
  C10_partial_accumulation wRowPartial.multiple_loss_code
    [JVal.obj [("lossName", JVal.str "Jam")]] (JVal.num 5) []
    (by
      intro x hx
      rw [List.mem_singleton] at hx
      exact ⟨_, hx⟩)
    (by intro f h; cases h)
    (by with_unfolding_all rfl)
